import Mathlib

/-!
Verification of the multi-draft generation orchestration engine of the
`vosslab_podcast` repository (`pipeline/podlib/depth_orchestrator.py` and
`pipeline/podlib/outline_draft_cache.py`).

Python strings are embedded as `List Char`; the file system that backs the
per-run draft cache is embedded as an association list from paths to file
contents; the four caller-supplied capabilities (generate / referee / polish
/ quality check) are embedded as Lean functions, with the generate capability
given as a stream indexed by the number of calls made so far (the Python
callable takes no arguments, so successive calls may differ).  All capability
invocations are recorded in an explicit `RunState`, so "capability X is
invoked exactly k times" becomes a statement about the recorded logs.
The `logger` argument of the Python code only prints progress lines and is
never consulted for control flow; it is not modelled.
-/

/-! ### Python string helpers

`isPySpace` models the ASCII part of Python's `\s` character class and of
`str.strip` (the inputs handled by the orchestrator are ASCII). -/

def isPySpace (c : Char) : Bool :=
  c == ' ' || c == '\t' || c == '\n' || c == '\r' || c == '\x0b' || c == '\x0c'

/-- Python `str.strip()`: drop leading and trailing whitespace. -/
def pyStrip (s : List Char) : List Char :=
  ((s.dropWhile isPySpace).reverse.dropWhile isPySpace).reverse

/-- Case-insensitive "is `pat` a prefix of `s`" (Python `re.IGNORECASE`). -/
def startsWithCI : List Char → List Char → Bool
  | [], _ => true
  | _ :: _, [] => false
  | p :: ps, s :: ss => p.toLower == s.toLower && startsWithCI ps ss

/-- Split `s` at the first case-insensitive occurrence of `pat`, returning
the text before the occurrence and the text after it. -/
def splitAtCI (pat : List Char) : List Char → Option (List Char × List Char)
  | [] => none
  | c :: rest =>
    if startsWithCI pat (c :: rest) then some ([], (c :: rest).drop pat.length)
    else
      match splitAtCI pat rest with
      | none => none
      | some (pre, post) => some (c :: pre, post)

def winnerOpenTag : List Char := "<winner>".toList

def winnerCloseTag : List Char := "</winner>".toList

/-!
### Winner parser

Model of `re.search(r"<winner>\s*(.*?)\s*</winner>", raw, re.IGNORECASE)`
followed by `match.group(1).strip()`.

The regex scans start positions left to right.  A match can only start at a
case-insensitive occurrence of `<winner>`.  At such a start, because `(.*?)`
is lazy and `.` does not match a newline while `\s` does, the engine matches
up to the first subsequent case-insensitive `</winner>` exactly when the text
between the tags becomes newline-free after stripping surrounding whitespace;
the captured group, stripped, is then that stripped between-text.  If the
between-text up to the first closing tag keeps an interior newline, no later
closing tag can repair it (the interior newline stays interior), so the whole
start position fails and the scan resumes one character further on. -/
def findWinnerContent : List Char → Option (List Char)
  | [] => none
  | c :: rest =>
    if startsWithCI winnerOpenTag (c :: rest) then
      match splitAtCI winnerCloseTag ((c :: rest).drop winnerOpenTag.length) with
      | some (between, _) =>
        if (pyStrip between).contains '\n' then findWinnerContent rest
        else some (pyStrip between)
      | none => findWinnerContent rest
    else findWinnerContent rest

/-- Lower-case a string (Python `str.lower()`, ASCII fragment). -/
def pyLower (s : List Char) : List Char :=
  s.map Char.toLower

/-- Embedding of `parse_referee_winner(raw, label_a, label_b)`: extract the
winner label from referee output, defaulting to `label_b` whenever the tag is
missing or its content matches neither (stripped, lower-cased) label. -/
def parse_referee_winner (raw label_a label_b : List Char) : List Char :=
  match findWinnerContent raw with
  | none => label_b
  | some core =>
    let content := pyLower core
    if content = pyLower (pyStrip label_a) then label_a
    else if content = pyLower (pyStrip label_b) then label_b
    else label_b

/-! ### Depth policy -/

/-- The only exception raised by the orchestrator layer itself:
`ValueError(f"depth must be 1, 2, 3, or 4; got {depth}")`. -/
inductive PipelineError where
  | invalidDepth (depth : Int)
deriving DecidableEq, Repr

/-- Embedding of `validate_depth`. -/
def validate_depth (depth : Int) : Except PipelineError Unit :=
  if depth = 1 ∨ depth = 2 ∨ depth = 3 ∨ depth = 4 then Except.ok ()
  else Except.error (PipelineError.invalidDepth depth)

/-- Embedding of `compute_draft_count`: validates, then returns the depth. -/
def compute_draft_count (depth : Int) : Except PipelineError Int :=
  match validate_depth depth with
  | Except.error e => Except.error e
  | Except.ok _ => Except.ok depth

/-- Embedding of `needs_referee`: validates, then `depth == 4`. -/
def needs_referee (depth : Int) : Except PipelineError Bool :=
  match validate_depth depth with
  | Except.error e => Except.error e
  | Except.ok _ => Except.ok (decide (depth = 4))

/-- Embedding of `needs_polish`: validates, then `depth >= 2`. -/
def needs_polish (depth : Int) : Except PipelineError Bool :=
  match validate_depth depth with
  | Except.error e => Except.error e
  | Except.ok _ => Except.ok (decide (2 ≤ depth))

/-! ### Bracket builder -/

/-- Embedding of `build_referee_brackets`: the Python loop
`for i in range(0, len(drafts) - 1, 2)` appends `(drafts[i], drafts[i + 1])`,
which visits `i = 2 * k` for every `k` with `2 * k < len - 1`, i.e. exactly
`len / 2` iterations. -/
def build_referee_brackets (drafts : List (List Char)) : List (List Char × List Char) :=
  (List.range (drafts.length / 2)).map fun k =>
    (drafts.getD (2 * k) [], drafts.getD (2 * k + 1) [])

/-! ### Per-run draft cache and file system model

The file system is an association list from file paths to file contents;
a path absent from the list is a file that does not exist.  Writing prepends
a fresh binding, so a later lookup sees the newest contents. -/

def lookupFS : List (List Char × List Char) → List Char → Option (List Char)
  | [], _ => none
  | (p, t) :: rest, q => if p = q then some t else lookupFS rest q

def saveFS (fs : List (List Char × List Char)) (path text : List Char) :
    List (List Char × List Char) :=
  (path, text) :: fs

/-- Decimal digits of an integer, modelling Python f-string interpolation. -/
def intToChars (i : Int) : List Char :=
  if i < 0 then '-' :: Nat.toDigits 10 i.natAbs else Nat.toDigits 10 i.toNat

/-- POSIX `os.path.join` for one directory and one relative-or-absolute
file name. -/
def osPathJoin (a b : List Char) : List Char :=
  if b.head? = some '/' then b
  else if a = [] then b
  else if a.getLast? = some '/' then a ++ b
  else a ++ '/' :: b

/-- Embedding of `_cache_path`: the file path
`os.path.join(cache_dir, f"{cache_key_prefix}_d{depth}_i{index}.txt")`. -/
def cachePathOf (cache_dir cache_key_pfx : List Char) (depth : Int) (index : Nat) :
    List Char :=
  osPathJoin cache_dir
    (cache_key_pfx ++ '_' :: 'd' :: intToChars depth
      ++ '_' :: 'i' :: (Nat.toDigits 10 index ++ ".txt".toList))

/-- Embedding of `_load_cached_draft`: the contents of the file at `path`,
or the empty string when no such file exists. -/
def load_cached_draft (fs : List (List Char × List Char)) (path : List Char) :
    List Char :=
  match lookupFS fs path with
  | none => []
  | some text => text

/-! ### Orchestrator state and capabilities -/

/-- The four caller-supplied capabilities of `run_depth_pipeline`.
`generate k` is the value returned by the `k`-th call (0-based) of the
argument-less Python callable `generate_draft_fn`. -/
structure Caps where
  generate : Nat → List Char
  referee : List Char → List Char → List Char
  polish : List (List Char) → Int → List Char
  quality : List Char → List Char

/-- Observable state of one or more pipeline runs: the cache file system plus
a record of every capability invocation.  `refLog` entries carry the two
position labels and the two draft arguments of one referee call, in call
order; `polishLog` carries the draft list and depth of each polish call;
`qcLog` carries the argument of each quality-check call. -/
structure RunState where
  fs : List (List Char × List Char)
  genCount : Nat
  refLog : List ((List Char × List Char) × (List Char × List Char))
  polishLog : List (List (List Char) × Int)
  qcLog : List (List Char)
deriving DecidableEq, Repr

/-- One iteration of the draft-generation loop of `run_depth_pipeline`:
in continue mode a non-empty cached draft is reused without generating;
otherwise one draft is generated and written through to the cache. -/
def acquireDraft (caps : Caps) (continue_mode : Bool) (path : List Char)
    (st : RunState) : RunState × List Char :=
  let cached := load_cached_draft st.fs path
  if continue_mode = true ∧ cached ≠ [] then (st, cached)
  else
    let d := caps.generate st.genCount
    ({ st with fs := saveFS st.fs path d, genCount := st.genCount + 1 }, d)

/-- The draft-generation loop over the given list of draft indices. -/
def draftLoop (caps : Caps) (continue_mode : Bool) (cache_dir cache_key_pfx : List Char)
    (depth : Int) : List Nat → RunState → RunState × List (List Char)
  | [], st => (st, [])
  | i :: rest, st =>
    let pr := acquireDraft caps continue_mode (cachePathOf cache_dir cache_key_pfx depth i) st
    let next := draftLoop caps continue_mode cache_dir cache_key_pfx depth rest pr.1
    (next.1, pr.2 :: next.2)

/-- The referee-bracket loop of `run_depth_pipeline`: for bracket `bidx`
the labels are `f"Draft {bidx * 2 + 1}"` and `f"Draft {bidx * 2 + 2}"`; the
referee capability is invoked on the pair, the winner label is parsed, and
the corresponding draft survives. -/
def refereeLoop (caps : Caps) : Nat → List (List Char × List Char) → RunState →
    RunState × List (List Char)
  | _, [], st => (st, [])
  | bidx, (a, b) :: rest, st =>
    let la := "Draft ".toList ++ Nat.toDigits 10 (bidx * 2 + 1)
    let lb := "Draft ".toList ++ Nat.toDigits 10 (bidx * 2 + 2)
    let raw := caps.referee a b
    let w := parse_referee_winner raw la lb
    let chosen := if w = la then a else b
    let st1 : RunState := { st with refLog := st.refLog ++ [((la, lb), (a, b))] }
    let next := refereeLoop caps (bidx + 1) rest st1
    (next.1, chosen :: next.2)

/-- Embedding of `run_depth_pipeline`.  Returns the final state together
with either the produced text or the `InvalidDepth` failure.  An exception
raised by `validate_depth` leaves the state untouched: no capability has
been invoked yet.  (`drafts[0]` is total in the source because a validated
depth generates at least one draft; the embedding uses `headD []`.) -/
def run_depth_pipeline (caps : Caps) (depth : Int)
    (cache_dir cache_key_pfx : List Char) (continue_mode : Bool)
    (st0 : RunState) : RunState × Except PipelineError (List Char) :=
  match validate_depth depth with
  | Except.error e => (st0, Except.error e)
  | Except.ok _ =>
    match compute_draft_count depth with
    | Except.error e => (st0, Except.error e)
    | Except.ok draft_count =>
      let gen := draftLoop caps continue_mode cache_dir cache_key_pfx depth
        (List.range draft_count.toNat) st0
      let st1 := gen.1
      let drafts := gen.2
      if depth = 1 then (st1, Except.ok (drafts.headD []))
      else
        match needs_referee depth with
        | Except.error e => (st1, Except.error e)
        | Except.ok nr =>
          let best_unpolished := drafts.headD []
          let stage :=
            if nr then
              let ref := refereeLoop caps 0 (build_referee_brackets drafts) st1
              (ref.1, ref.2, (ref.2).headD [])
            else (st1, drafts, best_unpolished)
          let st2 := stage.1
          let drafts_for_polish := stage.2.1
          let best := stage.2.2
          let polished := caps.polish drafts_for_polish depth
          let st3 : RunState :=
            { st2 with polishLog := st2.polishLog ++ [(drafts_for_polish, depth)] }
          let issue := caps.quality polished
          let st4 : RunState := { st3 with qcLog := st3.qcLog ++ [polished] }
          if issue ≠ [] then (st4, Except.ok best) else (st4, Except.ok polished)

/-! ### Pure mirrors of the run stages

The functions below recompute, without state, the values the orchestrator
produces after the draft-generation loop; they are proven to coincide with
the stateful run. -/

/-- The surviving draft of each bracket, in bracket order. -/
def winnersFrom (caps : Caps) : Nat → List (List Char × List Char) → List (List Char)
  | _, [] => []
  | bidx, (a, b) :: rest =>
    let la := "Draft ".toList ++ Nat.toDigits 10 (bidx * 2 + 1)
    let lb := "Draft ".toList ++ Nat.toDigits 10 (bidx * 2 + 2)
    let w := parse_referee_winner (caps.referee a b) la lb
    (if w = la then a else b) :: winnersFrom caps (bidx + 1) rest

/-- The referee-log entries produced by the bracket loop, in call order. -/
def refCallsFrom (caps : Caps) : Nat → List (List Char × List Char) →
    List ((List Char × List Char) × (List Char × List Char))
  | _, [] => []
  | bidx, (a, b) :: rest =>
    let la := "Draft ".toList ++ Nat.toDigits 10 (bidx * 2 + 1)
    let lb := "Draft ".toList ++ Nat.toDigits 10 (bidx * 2 + 2)
    ((la, lb), (a, b)) :: refCallsFrom caps (bidx + 1) rest

/-- The draft list handed to the polish capability: the bracket winners at
depth 4, the full draft set at depth 2-3. -/
def polishInputOf (caps : Caps) (depth : Int) (drafts : List (List Char)) :
    List (List Char) :=
  if depth = 4 then winnersFrom caps 0 (build_referee_brackets drafts) else drafts

/-- The text returned by the orchestrator, as a function of the draft set:
the sole draft at depth 1, otherwise the polish output unless the quality
check reports an issue, in which case the head of the polish input (the
fallback candidate). -/
def outputOf (caps : Caps) (depth : Int) (drafts : List (List Char)) : List Char :=
  if depth = 1 then drafts.headD []
  else
    let dfp := polishInputOf caps depth drafts
    let polished := caps.polish dfp depth
    if caps.quality polished = [] then polished else dfp.headD []

/-- The state transformation applied by the stages after the draft loop:
only the invocation logs change; the cache and the generate count do not. -/
def postStages (caps : Caps) (depth : Int) (st : RunState)
    (drafts : List (List Char)) : RunState :=
  if depth = 1 then st
  else
    let dfp := polishInputOf caps depth drafts
    let st2 : RunState :=
      if depth = 4 then
        { st with refLog := st.refLog ++ refCallsFrom caps 0 (build_referee_brackets drafts) }
      else st
    { st2 with polishLog := st2.polishLog ++ [(dfp, depth)],
               qcLog := st2.qcLog ++ [caps.polish dfp depth] }

/-! ### Context fingerprint (`outline_draft_cache.compute_run_fingerprint`)

The fingerprint hashes a canonical JSON serialization of the run context:
`json.dumps(payload, sort_keys=True, ensure_ascii=True)` followed by
`hashlib.sha256(...).hexdigest()[:16]`.  The JSON values that can occur in a
payload are embedded as `Jval`; `sort_keys=True` is embedded by sorting the
rendered `"key": value` entries of every object node with the lexicographic
order on `List Char` (for the ASCII-clean, duplicate-free keys produced by
the pipeline this coincides with Python's sort over keys; what the claims
need is that the serialization is canonical, i.e. invariant under reordering
of an object's fields). -/

inductive Jval where
  | str (s : List Char)
  | num (n : Int)
  | obj (fields : List (List Char × Jval))

/-- First-match association lookup, modelling Python `dict.get` (the dicts
built by the pipeline have no duplicate keys). -/
def lookupJ : List (List Char × Jval) → List Char → Option Jval
  | [], _ => none
  | (k, v) :: rest, q => if k = q then some v else lookupJ rest q

/-- Python `outline.get(key, default)`. -/
def jGet (o : List (List Char × Jval)) (k : List Char) (dflt : Jval) : Jval :=
  match lookupJ o k with
  | none => dflt
  | some v => v

/-- JSON string escaping (the fragment exercised by the pipeline's ASCII
payloads): backslash, double quote and the common control characters. -/
def jQuoteChar (c : Char) : List Char :=
  if c = Char.ofNat 92 then [Char.ofNat 92, Char.ofNat 92]
  else if c = Char.ofNat 34 then [Char.ofNat 92, Char.ofNat 34]
  else if c = '\n' then [Char.ofNat 92, 'n']
  else if c = '\t' then [Char.ofNat 92, 't']
  else if c = '\r' then [Char.ofNat 92, 'r']
  else [c]

/-- A JSON string literal: escaped contents between double quotes. -/
def jQuote (s : List Char) : List Char :=
  Char.ofNat 34 :: (s.foldr (fun c acc => jQuoteChar c ++ acc) [Char.ofNat 34])

/-- Comma-space intercalation of rendered object entries. -/
def joinComma (l : List (List Char)) : List Char :=
  List.intercalate (',' :: [' ']) l

mutual

/-- Canonical JSON serialization (`json.dumps(..., sort_keys=True)`). -/
def serJ : Jval → List Char
  | Jval.str s => jQuote s
  | Jval.num n => intToChars n
  | Jval.obj fields =>
    Char.ofNat 123 ::
      (joinComma (List.insertionSort (fun a b => a ≤ b) (serFields fields)) ++
        [Char.ofNat 125])

/-- The rendered `"key": value` entries of an object, in field order. -/
def serFields : List (List Char × Jval) → List (List Char)
  | [] => []
  | (k, v) :: rest => (jQuote k ++ ':' :: ' ' :: serJ v) :: serFields rest

end

/-! ### SHA-256 over byte lists (`hashlib.sha256`), words as `Nat` mod 2^32 -/

def mask32 : Nat := 2 ^ 32 - 1

def rotr32 (n x : Nat) : Nat :=
  ((x >>> n) ||| (x <<< (32 - n))) % 2 ^ 32

def shaS0 (x : Nat) : Nat := rotr32 7 x ^^^ rotr32 18 x ^^^ (x >>> 3)

def shaS1 (x : Nat) : Nat := rotr32 17 x ^^^ rotr32 19 x ^^^ (x >>> 10)

def shaB0 (x : Nat) : Nat := rotr32 2 x ^^^ rotr32 13 x ^^^ rotr32 22 x

def shaB1 (x : Nat) : Nat := rotr32 6 x ^^^ rotr32 11 x ^^^ rotr32 25 x

/-- SHA-256 round constants (fractional parts of the cube roots of the first
64 primes). -/
def K256 : List Nat :=
  [1116352408, 1899447441, 3049323471, 3921009573,
   961987163, 1508970993, 2453635748, 2870763221,
   3624381080, 310598401, 607225278, 1426881987,
   1925078388, 2162078206, 2614888103, 3248222580,
   3835390401, 4022224774, 264347078, 604807628,
   770255983, 1249150122, 1555081692, 1996064986,
   2554220882, 2821834349, 2952996808, 3210313671,
   3336571891, 3584528711, 113926993, 338241895,
   666307205, 773529912, 1294757372, 1396182291,
   1695183700, 1986661051, 2177026350, 2456956037,
   2730485921, 2820302411, 3259730800, 3345764771,
   3516065817, 3600352804, 4094571909, 275423344,
   430227734, 506948616, 659060556, 883997877,
   958139571, 1322822218, 1537002063, 1747873779,
   1955562222, 2024104815, 2227730452, 2361852424,
   2428436474, 2756734187, 3204031479, 3329325298]

/-- Running hash / working variables of one SHA-256 compression. -/
structure Sha256State where
  s0 : Nat
  s1 : Nat
  s2 : Nat
  s3 : Nat
  s4 : Nat
  s5 : Nat
  s6 : Nat
  s7 : Nat

/-- Initial hash values (fractional parts of the square roots of the first
8 primes). -/
def shaInit : Sha256State :=
  ⟨1779033703, 3144134277, 1013904242, 2773480762,
   1359893119, 2600822924, 528734635, 1541459225⟩

/-- Big-endian bytes of `n`, `k` bytes wide. -/
def toBytesBE (k n : Nat) : List Nat :=
  (List.range k).map fun i => n / 2 ^ (8 * (k - 1 - i)) % 256

/-- SHA-256 padding: append `0x80`, zero bytes, and the 64-bit big-endian
bit length, reaching a multiple of 64 bytes. -/
def padMessage (msg : List Nat) : List Nat :=
  let padLen := (64 - (msg.length + 9) % 64) % 64
  msg ++ 0x80 :: (List.replicate padLen 0 ++ toBytesBE 8 (8 * msg.length))

/-- Split a byte list into 64-byte chunks; the fuel argument bounds the
number of chunks (the list length suffices, since each step consumes at
least one byte). -/
def chunks64Aux : Nat → List Nat → List (List Nat)
  | 0, _ => []
  | _, [] => []
  | fuel + 1, b :: rest =>
    (b :: rest).take 64 :: chunks64Aux fuel ((b :: rest).drop 64)

/-- Split a byte list into 64-byte chunks. -/
def chunks64 (l : List Nat) : List (List Nat) :=
  chunks64Aux l.length l

/-- Big-endian 32-bit words from bytes. -/
def bytesToWords : List Nat → List Nat
  | b0 :: b1 :: b2 :: b3 :: rest =>
    (((b0 * 256 + b1) * 256 + b2) * 256 + b3) :: bytesToWords rest
  | _ => []

/-- One message-schedule extension step appending
`W[n] = W[n-16] + s0(W[n-15]) + W[n-7] + s1(W[n-2])`. -/
def shaExtendStep (w : List Nat) : List Nat :=
  let n := w.length
  w ++ [(w.getD (n - 16) 0 + shaS0 (w.getD (n - 15) 0) + w.getD (n - 7) 0 +
    shaS1 (w.getD (n - 2) 0)) % 2 ^ 32]

/-- The 64-word message schedule of one chunk. -/
def buildSchedule (chunk : List Nat) : List Nat :=
  (List.range 48).foldl (fun w _ => shaExtendStep w) (bytesToWords chunk)

/-- One compression round; the pair carries `(K[i], W[i])`. -/
def shaRound (st : Sha256State) (kw : Nat × Nat) : Sha256State :=
  let ch := (st.s4 &&& st.s5) ^^^ ((st.s4 ^^^ mask32) &&& st.s6)
  let temp1 := (st.s7 + shaB1 st.s4 + ch + kw.1 + kw.2) % 2 ^ 32
  let maj := (st.s0 &&& st.s1) ^^^ (st.s0 &&& st.s2) ^^^ (st.s1 &&& st.s2)
  let temp2 := (shaB0 st.s0 + maj) % 2 ^ 32
  ⟨(temp1 + temp2) % 2 ^ 32, st.s0, st.s1, st.s2,
    (st.s3 + temp1) % 2 ^ 32, st.s4, st.s5, st.s6⟩

/-- Compress one 64-byte chunk into the running hash. -/
def compressChunk (h : Sha256State) (chunk : List Nat) : Sha256State :=
  let v := (List.zip K256 (buildSchedule chunk)).foldl shaRound h
  ⟨(h.s0 + v.s0) % 2 ^ 32, (h.s1 + v.s1) % 2 ^ 32, (h.s2 + v.s2) % 2 ^ 32,
   (h.s3 + v.s3) % 2 ^ 32, (h.s4 + v.s4) % 2 ^ 32, (h.s5 + v.s5) % 2 ^ 32,
   (h.s6 + v.s6) % 2 ^ 32, (h.s7 + v.s7) % 2 ^ 32⟩

def sha256 (msg : List Nat) : Sha256State :=
  (chunks64 (padMessage msg)).foldl compressChunk shaInit

def hexDigitChar (n : Nat) : Char :=
  "0123456789abcdef".toList.getD n '0'

/-- Fixed-width (8 hex digits) rendering of one 32-bit word. -/
def hexWord32 (w : Nat) : List Char :=
  (List.range 8).map fun i => hexDigitChar (w / 16 ^ (7 - i) % 16)

/-- Embedding of `hashlib.sha256(bytes).hexdigest()`: 64 lower-case hex characters. -/
def sha256hex (msg : List Nat) : List Char :=
  let st := sha256 msg
  hexWord32 st.s0 ++ hexWord32 st.s1 ++ hexWord32 st.s2 ++ hexWord32 st.s3 ++
    hexWord32 st.s4 ++ hexWord32 st.s5 ++ hexWord32 st.s6 ++ hexWord32 st.s7

/-- Embedding of `compute_run_fingerprint(outline, stage_name, target_value,
extra)`: the first 16 hex characters of the SHA-256 of the canonical JSON
serialization of the payload dict built from the context.  (`ensure_ascii`
makes the serialized payload ASCII, so UTF-8 encoding is char-code bytes.) -/
def compute_run_fingerprint (outline : List (List Char × Jval))
    (stage_name : List Char) (target_value : Int)
    (extra : List (List Char × Jval)) : List Char :=
  let payload : Jval := Jval.obj
    [("stage_name".toList, Jval.str stage_name),
     ("user".toList, jGet outline "user".toList (Jval.str [])),
     ("window_start".toList, jGet outline "window_start".toList (Jval.str [])),
     ("window_end".toList, jGet outline "window_end".toList (Jval.str [])),
     ("target_value".toList, Jval.num target_value),
     ("totals".toList, jGet outline "totals".toList (Jval.obj [])),
     ("extra".toList, Jval.obj extra)]
  (sha256hex ((serJ payload).map Char.toNat)).take 16

/-- Base-2^32 positional encoding of a character list (every `Char` code
point is below 2^32); injective on lists of equal length. -/
def encodeChars : List Char → Nat
  | [] => 0
  | c :: rest => c.toNat + 2 ^ 32 * encodeChars rest

/-! ### Concrete fixtures used by witnesses and counterexamples -/

/-- Deterministic capabilities whose quality check always accepts. -/
def capsW : Caps :=
  { generate := fun k => List.replicate (k + 1) 'x',
    referee := fun a b => "<winner>Draft 1</winner>".toList ++ a ++ b,
    polish := fun ds _ => ds.flatten,
    quality := fun _ => [] }

/-- Deterministic capabilities whose quality check always rejects. -/
def capsBad : Caps :=
  { generate := fun k => List.replicate (k + 1) 'y',
    referee := fun a b => "<winner>Draft 2</winner>".toList ++ a ++ b,
    polish := fun ds _ => ds.flatten,
    quality := fun _ => "too short".toList }

/-- Deterministic capabilities whose generate capability returns the empty
draft on every call. -/
def capsEmptyGen : Caps :=
  { generate := fun _ => [],
    referee := fun a b => a ++ b,
    polish := fun ds _ => ds.flatten,
    quality := fun _ => [] }

/-- A fresh initial run state: empty cache directory, no calls recorded. -/
def st0W : RunState :=
  { fs := [], genCount := 0, refLog := [], polishLog := [], qcLog := [] }

theorem refereeLoop_eq (caps : Caps) :
    ∀ (bs : List (List Char × List Char)) (bidx : Nat) (st : RunState),
      refereeLoop caps bidx bs st =
        ({ st with refLog := st.refLog ++ refCallsFrom caps bidx bs },
          winnersFrom caps bidx bs) := by
  intro bs
  induction bs with
  | nil => intro bidx st; simp [refereeLoop, refCallsFrom, winnersFrom]
  | cons hd tl ih =>
    intro bidx st
    obtain ⟨a, b⟩ := hd
    simp only [refereeLoop, refCallsFrom, winnersFrom, ih]
    simp

/-- For a valid depth, the run is: draft loop, then the pure post stages,
returning `outputOf` applied to the generated draft set. -/
theorem run_depth_pipeline_eq (caps : Caps) (depth : Int)
    (cache_dir cache_key_pfx : List Char) (cm : Bool) (st0 : RunState)
    (hd : depth = 1 ∨ depth = 2 ∨ depth = 3 ∨ depth = 4) :
    run_depth_pipeline caps depth cache_dir cache_key_pfx cm st0 =
      (postStages caps depth
          (draftLoop caps cm cache_dir cache_key_pfx depth (List.range depth.toNat) st0).1
          (draftLoop caps cm cache_dir cache_key_pfx depth (List.range depth.toNat) st0).2,
        Except.ok (outputOf caps depth
          (draftLoop caps cm cache_dir cache_key_pfx depth (List.range depth.toNat) st0).2)) := by
  have hv : validate_depth depth = Except.ok () := by
    simp [validate_depth, hd]
  rcases hd with h | h | h | h <;> subst h <;>
    simp [run_depth_pipeline, hv, compute_draft_count, needs_referee, hv,
      postStages, outputOf, polishInputOf, refereeLoop_eq] <;>
    split <;> simp_all

theorem postStages_fs (caps : Caps) (depth : Int) (st : RunState)
    (ds : List (List Char)) : (postStages caps depth st ds).fs = st.fs := by
  simp only [postStages]
  split
  · rfl
  · split <;> rfl

theorem postStages_genCount (caps : Caps) (depth : Int) (st : RunState)
    (ds : List (List Char)) : (postStages caps depth st ds).genCount = st.genCount := by
  simp only [postStages]
  split
  · rfl
  · split <;> rfl

/-! ### Draft-loop lemmas -/

theorem acquireDraft_logs (caps : Caps) (cm : Bool) (p : List Char) (st : RunState) :
    (acquireDraft caps cm p st).1.refLog = st.refLog ∧
    (acquireDraft caps cm p st).1.polishLog = st.polishLog ∧
    (acquireDraft caps cm p st).1.qcLog = st.qcLog := by
  simp only [acquireDraft]
  split <;> simp

theorem draftLoop_logs (caps : Caps) (cm : Bool) (dir pfx : List Char) (depth : Int) :
    ∀ (idxs : List Nat) (st : RunState),
      (draftLoop caps cm dir pfx depth idxs st).1.refLog = st.refLog ∧
      (draftLoop caps cm dir pfx depth idxs st).1.polishLog = st.polishLog ∧
      (draftLoop caps cm dir pfx depth idxs st).1.qcLog = st.qcLog := by
  intro idxs
  induction idxs with
  | nil => intro st; simp [draftLoop]
  | cons i rest ih =>
    intro st
    simp only [draftLoop]
    obtain ⟨h1, h2, h3⟩ :=
      acquireDraft_logs caps cm (cachePathOf dir pfx depth i) st
    obtain ⟨g1, g2, g3⟩ :=
      ih (acquireDraft caps cm (cachePathOf dir pfx depth i) st).1
    exact ⟨g1.trans h1, g2.trans h2, g3.trans h3⟩

/-- After one loop iteration, the cache file of the processed index holds
exactly the draft that iteration produced. -/
theorem acquireDraft_lookup (caps : Caps) (cm : Bool) (p : List Char) (st : RunState) :
    lookupFS (acquireDraft caps cm p st).1.fs p = some (acquireDraft caps cm p st).2 := by
  simp only [acquireDraft]
  split
  · rename_i h
    obtain ⟨-, hne⟩ := h
    simp only [load_cached_draft] at hne ⊢
    cases hl : lookupFS st.fs p with
    | none => simp [hl] at hne
    | some t => simp [hl]
  · simp [saveFS, lookupFS]

/-- Loop iterations do not touch cache files at other paths. -/
theorem acquireDraft_frame (caps : Caps) (cm : Bool) (p q : List Char) (st : RunState)
    (hq : p ≠ q) :
    lookupFS (acquireDraft caps cm p st).1.fs q = lookupFS st.fs q := by
  simp only [acquireDraft]
  split
  · rfl
  · simp [saveFS, lookupFS, hq]

theorem draftLoop_frame (caps : Caps) (cm : Bool) (dir pfx : List Char) (depth : Int) :
    ∀ (idxs : List Nat) (st : RunState) (q : List Char),
      (∀ i ∈ idxs, cachePathOf dir pfx depth i ≠ q) →
      lookupFS (draftLoop caps cm dir pfx depth idxs st).1.fs q = lookupFS st.fs q := by
  intro idxs
  induction idxs with
  | nil => intro st q _; simp [draftLoop]
  | cons i rest ih =>
    intro st q hq
    simp only [draftLoop]
    rw [ih _ q (fun j hj => hq j (List.mem_cons_of_mem i hj))]
    exact acquireDraft_frame caps cm _ q st (hq i (List.mem_cons_self i rest))

/-- After the draft loop over pairwise path-distinct indices, loading every
index's cache file back returns exactly the draft set the loop produced. -/
theorem draftLoop_cache_roundtrip (caps : Caps) (cm : Bool) (dir pfx : List Char)
    (depth : Int) :
    ∀ (idxs : List Nat) (st : RunState),
      idxs.Pairwise (fun i j => cachePathOf dir pfx depth i ≠ cachePathOf dir pfx depth j) →
      idxs.map (fun i =>
          load_cached_draft (draftLoop caps cm dir pfx depth idxs st).1.fs
            (cachePathOf dir pfx depth i)) =
        (draftLoop caps cm dir pfx depth idxs st).2 := by
  intro idxs
  induction idxs with
  | nil => intro st _; simp [draftLoop]
  | cons i rest ih =>
    intro st hp
    obtain ⟨hhead, htail⟩ := List.pairwise_cons.mp hp
    simp only [draftLoop, List.map_cons, List.cons.injEq]
    constructor
    · have hframe := draftLoop_frame caps cm dir pfx depth rest
        (acquireDraft caps cm (cachePathOf dir pfx depth i) st).1
        (cachePathOf dir pfx depth i)
        (fun j hj => (hhead j hj).symm)
      simp only [load_cached_draft, hframe,
        acquireDraft_lookup caps cm (cachePathOf dir pfx depth i) st]
    · exact ih _ htail

theorem head?_append_of_head? {p t1 t2 : List Char} (h : t1.head? = t2.head?) :
    (p ++ t1).head? = (p ++ t2).head? := by
  cases p with
  | nil => simpa using h
  | cons c cs => simp

/-- The join `os.path.join` keeps distinct file names distinct (for file names that
agree on their first character, so that the same branch is taken). -/
theorem osPathJoin_ne (a : List Char) {x y : List Char} (hxy : x ≠ y)
    (hh : x.head? = y.head?) : osPathJoin a x ≠ osPathJoin a y := by
  simp only [osPathJoin, ← hh]
  split
  · exact hxy
  · split
    · exact hxy
    · split
      · intro h; exact hxy (List.append_cancel_left h)
      · intro h
        have h2 := List.append_cancel_left h
        exact hxy (List.tail_eq_of_cons_eq h2)

/-- Cache paths of two draft indices with distinct decimal digit strings are
distinct (same directory, prefix and depth). -/
theorem cachePathOf_ne (dir pfx : List Char) (depth : Int) {i j : Nat}
    (hij : Nat.toDigits 10 i ≠ Nat.toDigits 10 j) :
    cachePathOf dir pfx depth i ≠ cachePathOf dir pfx depth j := by
  apply osPathJoin_ne
  · intro h
    have h1 := List.append_cancel_left h
    have h2 := List.tail_eq_of_cons_eq (List.tail_eq_of_cons_eq h1)
    exact hij (List.append_cancel_right h2)
  · apply head?_append_of_head?
    rfl

/-- If every index's cache file already holds a non-empty draft, a
continue-mode draft loop is pure: it generates nothing, writes nothing, and
returns the cached drafts. -/
theorem draftLoop_all_hits (caps : Caps) (dir pfx : List Char) (depth : Int) :
    ∀ (idxs : List Nat) (st : RunState),
      (∀ i ∈ idxs, load_cached_draft st.fs (cachePathOf dir pfx depth i) ≠ []) →
      draftLoop caps true dir pfx depth idxs st =
        (st, idxs.map (fun i => load_cached_draft st.fs (cachePathOf dir pfx depth i))) := by
  intro idxs
  induction idxs with
  | nil => intro st _; simp [draftLoop]
  | cons i rest ih =>
    intro st hhit
    have hi : load_cached_draft st.fs (cachePathOf dir pfx depth i) ≠ [] :=
      hhit i (List.mem_cons_self i rest)
    have hstep : acquireDraft caps true (cachePathOf dir pfx depth i) st =
        (st, load_cached_draft st.fs (cachePathOf dir pfx depth i)) := by
      simp [acquireDraft, hi]
    simp only [draftLoop, hstep]
    rw [ih st (fun j hj => hhit j (List.mem_cons_of_mem i hj))]
    rfl



/-! ### Winner-parser lemmas -/

theorem startsWithCI_self_append (p t : List Char) :
    startsWithCI p (p ++ t) = true := by
  induction p with
  | nil => rfl
  | cons c cs ih => simp [startsWithCI, ih]

theorem startsWithCI_nil (c : Char) (cs : List Char) :
    startsWithCI (c :: cs) [] = false := rfl

/-- Scanning for the winner tag skips over a region in which the tag starts
nowhere. -/
theorem findWinnerContent_skip (pre rest : List Char)
    (h : ∀ k, k < pre.length →
      startsWithCI winnerOpenTag ((pre ++ rest).drop k) = false) :
    findWinnerContent (pre ++ rest) = findWinnerContent rest := by
  induction pre with
  | nil => rfl
  | cons c pre ih =>
    have h0 : startsWithCI winnerOpenTag (c :: (pre ++ rest)) = false := by
      simpa using h 0 (by simp)
    rw [List.cons_append, findWinnerContent, h0]
    simp only [Bool.false_eq_true, if_false]
    exact ih fun k hk => by simpa using h (k + 1) (by simpa using hk)

/-- Splitting at a pattern skips over a region in which the pattern starts
nowhere. -/
theorem splitAtCI_skip (pat pre rest : List Char)
    (h : ∀ k, k < pre.length →
      startsWithCI pat ((pre ++ rest).drop k) = false) :
    splitAtCI pat (pre ++ rest) =
      (splitAtCI pat rest).map (fun pr => (pre ++ pr.1, pr.2)) := by
  induction pre with
  | nil =>
    cases hs : splitAtCI pat rest with
    | none => simp [hs]
    | some pr => simp [hs]
  | cons c pre ih =>
    have h0 : startsWithCI pat (c :: (pre ++ rest)) = false := by
      simpa using h 0 (by simp)
    rw [List.cons_append, splitAtCI, h0]
    simp only [Bool.false_eq_true, if_false]
    rw [ih fun k hk => by simpa using h (k + 1) (by simpa using hk)]
    cases hs : splitAtCI pat rest with
    | none => simp [hs]
    | some pr => simp [hs]

/-- Splitting at a pattern occurring right at the head. -/
theorem splitAtCI_here (pat post : List Char) (hp : pat ≠ []) :
    splitAtCI pat (pat ++ post) = some ([], post) := by
  cases pat with
  | nil => exact absurd rfl hp
  | cons a as =>
    have hs : startsWithCI (a :: as) (a :: (as ++ post)) = true :=
      startsWithCI_self_append (a :: as) post
    have hd : (a :: (as ++ post)).drop (a :: as).length = post :=
      List.drop_left (a :: as) post
    rw [List.cons_append, splitAtCI, hs]
    simp [hd]

/-- If the winner tag starts nowhere in `raw`, the search finds nothing. -/
theorem findWinnerContent_none_of_no_open (raw : List Char)
    (h : ∀ k, k < raw.length →
      startsWithCI winnerOpenTag (raw.drop k) = false) :
    findWinnerContent raw = none := by
  induction raw with
  | nil => rfl
  | cons c rest ih =>
    have h0 : startsWithCI winnerOpenTag (c :: rest) = false := by
      simpa using h 0 (by simp)
    rw [findWinnerContent, h0]
    simp only [Bool.false_eq_true, if_false]
    exact ih fun k hk => by simpa using h (k + 1) (by simpa using hk)

/-- If the pattern starts nowhere in `s`, the split fails. -/
theorem splitAtCI_none_of_no_occ (pat s : List Char)
    (h : ∀ k, k < s.length → startsWithCI pat (s.drop k) = false) :
    splitAtCI pat s = none := by
  induction s with
  | nil => rfl
  | cons c rest ih =>
    have h0 : startsWithCI pat (c :: rest) = false := by
      simpa using h 0 (by simp)
    rw [splitAtCI, h0]
    simp only [Bool.false_eq_true, if_false]
    rw [ih fun k hk => by simpa using h (k + 1) (by simpa using hk)]

/-- Unfolding the search at a position where the open tag matches and the
first subsequent closing tag yields a newline-free stripped content. -/
theorem findWinnerContent_open (R between post' : List Char)
    (hsplit : splitAtCI winnerCloseTag R = some (between, post'))
    (hnl : (pyStrip between).contains '\n' = false) :
    findWinnerContent (winnerOpenTag ++ R) = some (pyStrip between) := by
  have hs : startsWithCI winnerOpenTag ('<' :: ("winner>".toList ++ R)) = true :=
    startsWithCI_self_append winnerOpenTag R
  have hd : ('<' :: ("winner>".toList ++ R)).drop winnerOpenTag.length = R :=
    List.drop_left winnerOpenTag R
  show findWinnerContent ('<' :: ("winner>".toList ++ R)) = some (pyStrip between)
  rw [findWinnerContent, hs]
  simp only [if_pos rfl, hd, hsplit, hnl, Bool.false_eq_true, if_false, if_true]

/-- The full structured characterization of a raw text whose first winner
marker occurs after a tag-free region `pre`, with content `c` free of the
closing tag and with newline-free stripped content: the parser resolves it
from `c` alone, comparing against the stripped, lower-cased labels. -/
theorem parse_referee_winner_structured (a b pre c post : List Char)
    (hpre : ∀ k, k < pre.length →
      startsWithCI winnerOpenTag
        ((pre ++ (winnerOpenTag ++ (c ++ (winnerCloseTag ++ post)))).drop k) = false)
    (hc : ∀ k, k < c.length →
      startsWithCI winnerCloseTag ((c ++ (winnerCloseTag ++ post)).drop k) = false)
    (hnl : (pyStrip c).contains '\n' = false) :
    parse_referee_winner (pre ++ (winnerOpenTag ++ (c ++ (winnerCloseTag ++ post)))) a b =
      (if pyLower (pyStrip c) = pyLower (pyStrip a) then a else b) := by
  have hsplit : splitAtCI winnerCloseTag (c ++ (winnerCloseTag ++ post)) =
      some (c, post) := by
    rw [splitAtCI_skip winnerCloseTag c (winnerCloseTag ++ post) hc,
      splitAtCI_here winnerCloseTag post (by decide)]
    simp
  have hfind : findWinnerContent
      (pre ++ (winnerOpenTag ++ (c ++ (winnerCloseTag ++ post)))) = some (pyStrip c) := by
    rw [findWinnerContent_skip pre _ hpre, findWinnerContent_open _ c post hsplit hnl]
  unfold parse_referee_winner
  rw [hfind]
  by_cases hA : pyLower (pyStrip c) = pyLower (pyStrip a)
  · simp [hA]
  · by_cases hB : pyLower (pyStrip c) = pyLower (pyStrip b) <;> simp [hA, hB]

/-- If the closing tag starts nowhere in `raw`, no marker can complete, so
the search finds nothing. -/
theorem findWinnerContent_none_of_no_close (raw : List Char)
    (h : ∀ k, k < raw.length → startsWithCI winnerCloseTag (raw.drop k) = false) :
    findWinnerContent raw = none := by
  induction raw with
  | nil => rfl
  | cons c rest ih =>
    have hrest : ∀ k, k < rest.length →
        startsWithCI winnerCloseTag (rest.drop k) = false :=
      fun k hk => by simpa using h (k + 1) (by simpa using hk)
    rw [findWinnerContent]
    split
    · rw [splitAtCI_none_of_no_occ winnerCloseTag _ ?hno]
      · exact ih hrest
      case hno =>
        intro k hk
        rw [List.drop_drop]
        apply h
        simp only [List.length_drop] at hk
        omega
    · exact ih hrest

/-- C5 (amended): for a raw text whose first winner marker is well formed
(no closing tag inside the content, stripped content newline-free), the
parser returns label A exactly when the stripped content case-insensitively
equals the stripped label A, and label B otherwise; when the open tag starts
nowhere (marker absent) or the closing tag starts nowhere (marker
unclosed/malformed), the parser returns label B.  The parser is a total
function, so it never raises. -/
theorem parse_winner_spec :
    (∀ a b pre c post : List Char,
      (∀ k, k < pre.length → startsWithCI winnerOpenTag
        ((pre ++ (winnerOpenTag ++ (c ++ (winnerCloseTag ++ post)))).drop k) = false) →
      (∀ k, k < c.length → startsWithCI winnerCloseTag
        ((c ++ (winnerCloseTag ++ post)).drop k) = false) →
      (pyStrip c).contains '\n' = false →
      ((pyLower (pyStrip c) = pyLower (pyStrip a) →
          parse_referee_winner
            (pre ++ (winnerOpenTag ++ (c ++ (winnerCloseTag ++ post)))) a b = a) ∧
        (pyLower (pyStrip c) ≠ pyLower (pyStrip a) →
          parse_referee_winner
            (pre ++ (winnerOpenTag ++ (c ++ (winnerCloseTag ++ post)))) a b = b))) ∧
    (∀ a b raw : List Char,
      (∀ k, k < raw.length → startsWithCI winnerOpenTag (raw.drop k) = false) →
      parse_referee_winner raw a b = b) ∧
    (∀ a b raw : List Char,
      (∀ k, k < raw.length → startsWithCI winnerCloseTag (raw.drop k) = false) →
      parse_referee_winner raw a b = b) := by
  refine ⟨?_, ?_, ?_⟩
  · intro a b pre c post hpre hc hnl
    have h := parse_referee_winner_structured a b pre c post hpre hc hnl
    constructor
    · intro hA; rw [h, if_pos hA]
    · intro hA; rw [h, if_neg hA]
  · intro a b raw hno
    unfold parse_referee_winner
    rw [findWinnerContent_none_of_no_open raw hno]
  · intro a b raw hno
    unfold parse_referee_winner
    rw [findWinnerContent_none_of_no_close raw hno]

/-- C5 counterexample: with content `b`, label A `" b "` and label B `"b"`,
the trimmed marker content case-insensitively equals label B verbatim, yet
the parser returns label A (the code compares against *stripped* labels, and
the stripped label A also equals the content). -/
theorem parse_winner_untrimmed_label_cex :
    pyStrip "<winner>b</winner>".toList = "<winner>b</winner>".toList ∧
    parse_referee_winner "<winner>b</winner>".toList " b ".toList "b".toList
      = " b ".toList ∧
    " b ".toList ≠ "b".toList := by decide

/-- A closed instance of claim C5 obtained from `parse_winner_spec`. -/
theorem parse_winner_spec_witness :
    parse_referee_winner
        ("x ".toList ++ (winnerOpenTag ++ ("A".toList ++ (winnerCloseTag ++ " y".toList))))
        "A".toList "B".toList = "A".toList :=
  (parse_winner_spec.1 "A".toList "B".toList "x ".toList "A".toList " y".toList
    (by decide) (by decide) (by decide)).1 (by decide)

/-- C6 (amended): when the raw text holds more than one winner marker, the
parser resolves from the *first* marker's content; it falls back to label B
only when that content matches neither stripped label — it does not
unconditionally resolve to label B. -/
theorem parse_winner_multiple_markers (a b c1 c2 mid post : List Char)
    (hc1 : ∀ k, k < c1.length → startsWithCI winnerCloseTag
      ((c1 ++ (winnerCloseTag ++
        (mid ++ (winnerOpenTag ++ (c2 ++ (winnerCloseTag ++ post)))))).drop k) = false)
    (hnl : (pyStrip c1).contains '\n' = false) :
    parse_referee_winner
        (winnerOpenTag ++ (c1 ++ (winnerCloseTag ++
          (mid ++ (winnerOpenTag ++ (c2 ++ (winnerCloseTag ++ post))))))) a b =
      (if pyLower (pyStrip c1) = pyLower (pyStrip a) then a else b) := by
  have h := parse_referee_winner_structured a b [] c1
    (mid ++ (winnerOpenTag ++ (c2 ++ (winnerCloseTag ++ post))))
    (by intro k hk; simp at hk) hc1 hnl
  simpa using h

/-- C6 counterexample: two markers are present (an ambiguous verdict), yet
the parser returns the *first* label, not the second. -/
theorem ambiguous_marker_defaults_cex :
    parse_referee_winner "<winner>A</winner><winner>B</winner>".toList
        "A".toList "B".toList = "A".toList ∧
    "A".toList ≠ "B".toList := by decide

/-- A closed instance of claim C6 obtained from
`parse_winner_multiple_markers`. -/
theorem parse_winner_multiple_markers_witness :
    parse_referee_winner
        (winnerOpenTag ++ ("A".toList ++ (winnerCloseTag ++
          (" ".toList ++ (winnerOpenTag ++ ("B".toList ++ (winnerCloseTag ++ [])))))))
        "A".toList "B".toList = "A".toList := by
  have h := parse_winner_multiple_markers "A".toList "B".toList "A".toList "B".toList
    " ".toList [] (by decide) (by decide)
  rw [if_pos (by decide)] at h
  exact h

theorem build_referee_brackets_nil : build_referee_brackets [] = [] := by
  simp [build_referee_brackets]

theorem build_referee_brackets_single (a : List Char) :
    build_referee_brackets [a] = [] := by
  simp [build_referee_brackets]

theorem build_referee_brackets_cons (a b : List Char) (l : List (List Char)) :
    build_referee_brackets (a :: b :: l) = (a, b) :: build_referee_brackets l := by
  simp only [build_referee_brackets, List.length_cons]
  have h2 : (l.length + 1 + 1) / 2 = l.length / 2 + 1 := by omega
  rw [h2, List.range_succ_eq_map]
  simp only [List.map_cons, List.map_map]
  congr 1

theorem build_referee_brackets_four (d1 d2 d3 d4 : List Char) :
    build_referee_brackets [d1, d2, d3, d4] = [(d1, d2), (d3, d4)] := by
  rw [build_referee_brackets_cons, build_referee_brackets_cons,
    build_referee_brackets_nil]

/-- C7: the bracket builder pairs adjacent entries from index 0 stepping by
2; a trailing unpaired entry is silently dropped; the bracket count is half
the (floored) input length; concrete instances for lengths 0 to 4. -/
theorem build_referee_brackets_spec :
    (∀ (a b : List Char) (l : List (List Char)),
      build_referee_brackets (a :: b :: l) = (a, b) :: build_referee_brackets l) ∧
    (∀ a : List Char, build_referee_brackets [a] = []) ∧
    build_referee_brackets [] = [] ∧
    (∀ l : List (List Char), (build_referee_brackets l).length = l.length / 2) ∧
    (∀ a b c d : List Char, build_referee_brackets [a, b, c, d] = [(a, b), (c, d)]) ∧
    (∀ x y : List Char, build_referee_brackets [x, y] = [(x, y)]) ∧
    (∀ a b e : List Char, build_referee_brackets [a, b, e] = [(a, b)]) := by
  refine ⟨build_referee_brackets_cons, build_referee_brackets_single,
    build_referee_brackets_nil, fun l => by simp [build_referee_brackets], ?_, ?_, ?_⟩
  · intro a b c d
    rw [build_referee_brackets_cons, build_referee_brackets_cons,
      build_referee_brackets_nil]
  · intro x y; rw [build_referee_brackets_cons, build_referee_brackets_nil]
  · intro a b e; rw [build_referee_brackets_cons, build_referee_brackets_single]

/-- C4: for valid depths the policy returns the draft count equal to the
depth, referee exactly at depth 4 and polish exactly at depth >= 2; for any
other integer depth validation fails with `InvalidDepth`, and the
orchestrator returns that failure with the run state untouched — no
capability has been invoked (every invocation is recorded in the state). -/
theorem depth_policy_spec :
    (∀ depth : Int, (depth = 1 ∨ depth = 2 ∨ depth = 3 ∨ depth = 4) →
      validate_depth depth = Except.ok () ∧
      compute_draft_count depth = Except.ok depth ∧
      needs_referee depth = Except.ok (decide (depth = 4)) ∧
      needs_polish depth = Except.ok (decide (2 ≤ depth))) ∧
    (∀ depth : Int, ¬(depth = 1 ∨ depth = 2 ∨ depth = 3 ∨ depth = 4) →
      validate_depth depth = Except.error (PipelineError.invalidDepth depth) ∧
      ∀ (caps : Caps) (dir pfx : List Char) (cm : Bool) (st0 : RunState),
        run_depth_pipeline caps depth dir pfx cm st0 =
          (st0, Except.error (PipelineError.invalidDepth depth))) := by
  constructor
  · intro depth hd
    have hv : validate_depth depth = Except.ok () := by simp [validate_depth, hd]
    simp [compute_draft_count, needs_referee, needs_polish, hv]
  · intro depth hd
    have hv : validate_depth depth = Except.error (PipelineError.invalidDepth depth) := by
      simp [validate_depth, hd]
    exact ⟨hv, fun caps dir pfx cm st0 => by simp [run_depth_pipeline, hv]⟩

/-- Closed instances of claim C4 at depths 3 and 0. -/
theorem depth_policy_spec_witness :
    (compute_draft_count 3 = Except.ok 3 ∧
      needs_referee 3 = Except.ok false ∧ needs_polish 3 = Except.ok true) ∧
    run_depth_pipeline capsW 0 [] ['p'] false st0W =
      (st0W, Except.error (PipelineError.invalidDepth 0)) := by
  obtain ⟨h1, h2, h3, h4⟩ := depth_policy_spec.1 3 (by decide)
  refine ⟨⟨h2, h3, h4⟩, ?_⟩
  exact (depth_policy_spec.2 0 (by decide)).2 capsW [] ['p'] false st0W

/-- C3: at depth 1 with continue-mode disabled, the generate capability is
invoked exactly once (the count rises by one and the draft is written
through to the cache), referee, polish and quality check are never invoked
(their logs are unchanged), and the returned result is exactly the text of
that single generated draft. -/
theorem depth1_single_draft (caps : Caps) (dir pfx : List Char) (st0 : RunState) :
    run_depth_pipeline caps 1 dir pfx false st0 =
      ({ st0 with
          fs := saveFS st0.fs (cachePathOf dir pfx 1 0) (caps.generate st0.genCount),
          genCount := st0.genCount + 1 },
        Except.ok (caps.generate st0.genCount)) := by
  rw [run_depth_pipeline_eq caps 1 dir pfx false st0 (Or.inl rfl)]
  have hr : List.range (1 : Int).toNat = [0] := by decide
  rw [hr]
  simp [postStages, outputOf, draftLoop, acquireDraft]

theorem dlabel1 :
    "Draft ".toList ++ Nat.toDigits 10 (0 * 2 + 1) = "Draft 1".toList := by decide

theorem dlabel2 :
    "Draft ".toList ++ Nat.toDigits 10 (0 * 2 + 2) = "Draft 2".toList := by decide

theorem dlabel3 :
    "Draft ".toList ++ Nat.toDigits 10 (1 * 2 + 1) = "Draft 3".toList := by decide

theorem dlabel4 :
    "Draft ".toList ++ Nat.toDigits 10 (1 * 2 + 2) = "Draft 4".toList := by decide

theorem refCallsFrom_two (caps : Caps) (d1 d2 d3 d4 : List Char) :
    refCallsFrom caps 0 [(d1, d2), (d3, d4)] =
      [(("Draft 1".toList, "Draft 2".toList), (d1, d2)),
       (("Draft 3".toList, "Draft 4".toList), (d3, d4))] := by
  simp only [refCallsFrom, dlabel1, dlabel2, dlabel3, dlabel4]

theorem winnersFrom_two (caps : Caps) (d1 d2 d3 d4 : List Char) :
    winnersFrom caps 0 [(d1, d2), (d3, d4)] =
      [if parse_referee_winner (caps.referee d1 d2) "Draft 1".toList "Draft 2".toList
          = "Draft 1".toList then d1 else d2,
       if parse_referee_winner (caps.referee d3 d4) "Draft 3".toList "Draft 4".toList
          = "Draft 3".toList then d3 else d4] := by
  simp only [winnersFrom, dlabel1, dlabel2, dlabel3, dlabel4]

/-- C2: at depth 4 with draft set `[d1, d2, d3, d4]` (generation order), the
referee capability is invoked exactly twice, on `(d1, d2)` under the labels
"Draft 1"/"Draft 2" and then on `(d3, d4)` under "Draft 3"/"Draft 4"; polish
is invoked exactly once, on the two bracket winners in bracket order paired
with the depth value; the quality check is invoked exactly once, on the
polish output; and on quality failure the result is the first bracket's
winner `w1`. -/
theorem depth4_tournament_spec (caps : Caps) (dir pfx : List Char) (cm : Bool)
    (st0 : RunState) (d1 d2 d3 d4 w1 w2 : List Char)
    (hds : (draftLoop caps cm dir pfx 4 (List.range (4 : Int).toNat) st0).2 =
      [d1, d2, d3, d4])
    (hw1 : w1 = if parse_referee_winner (caps.referee d1 d2) "Draft 1".toList
        "Draft 2".toList = "Draft 1".toList then d1 else d2)
    (hw2 : w2 = if parse_referee_winner (caps.referee d3 d4) "Draft 3".toList
        "Draft 4".toList = "Draft 3".toList then d3 else d4) :
    ∃ st',
      run_depth_pipeline caps 4 dir pfx cm st0 =
        (st', Except.ok (if caps.quality (caps.polish [w1, w2] 4) = []
          then caps.polish [w1, w2] 4 else w1)) ∧
      st'.refLog = st0.refLog ++
        [(("Draft 1".toList, "Draft 2".toList), (d1, d2)),
         (("Draft 3".toList, "Draft 4".toList), (d3, d4))] ∧
      st'.polishLog = st0.polishLog ++ [([w1, w2], 4)] ∧
      st'.qcLog = st0.qcLog ++ [caps.polish [w1, w2] 4] := by
  subst hw1 hw2
  rw [run_depth_pipeline_eq caps 4 dir pfx cm st0 (by norm_num)]
  obtain ⟨hlog1, hlog2, hlog3⟩ :=
    draftLoop_logs caps cm dir pfx 4 (List.range (4 : Int).toNat) st0
  rw [hds]
  refine ⟨postStages caps 4
    (draftLoop caps cm dir pfx 4 (List.range (4 : Int).toNat) st0).1
    [d1, d2, d3, d4], ?_, ?_, ?_, ?_⟩
  · rw [outputOf]
    simp only [polishInputOf, build_referee_brackets_four, winnersFrom_two]
    norm_num
  · simp only [postStages, polishInputOf, build_referee_brackets_four,
      refCallsFrom_two]
    norm_num
    exact hlog1
  · simp only [postStages, polishInputOf, build_referee_brackets_four,
      winnersFrom_two]
    norm_num
    exact hlog2
  · simp only [postStages, polishInputOf, build_referee_brackets_four,
      winnersFrom_two]
    norm_num
    exact hlog3

/-- A closed instance of claim C2 obtained from `depth4_tournament_spec`. -/
theorem depth4_tournament_spec_witness :
    ∃ st',
      run_depth_pipeline capsW 4 [] ['p'] false st0W =
        (st', Except.ok
          (if capsW.quality (capsW.polish [['x'], ['x', 'x', 'x', 'x']] 4) = []
            then capsW.polish [['x'], ['x', 'x', 'x', 'x']] 4 else ['x'])) ∧
      st'.refLog = st0W.refLog ++
        [(("Draft 1".toList, "Draft 2".toList), (['x'], ['x', 'x'])),
         (("Draft 3".toList, "Draft 4".toList), (['x', 'x', 'x'], ['x', 'x', 'x', 'x']))] ∧
      st'.polishLog = st0W.polishLog ++ [([['x'], ['x', 'x', 'x', 'x']], 4)] ∧
      st'.qcLog = st0W.qcLog ++ [capsW.polish [['x'], ['x', 'x', 'x', 'x']] 4] :=
  depth4_tournament_spec capsW [] ['p'] false st0W ['x'] ['x', 'x'] ['x', 'x', 'x']
    ['x', 'x', 'x', 'x'] ['x'] ['x', 'x', 'x', 'x'] (by decide) (by decide) (by decide)

/-- C1: for every run at depth 2, 3 or 4, the polish capability is invoked
exactly once on a draft list `ds` (the full draft set at depth 2-3, the
bracket winners at depth 4), the quality-check predicate is invoked exactly
once, on the polish output only (never on a raw draft: the log gains exactly
that one entry), and the run returns the polish output when the predicate
returns the empty string and the fallback candidate `ds.headD []` (the first
draft at depth 2-3, the first bracket's winner at depth 4) otherwise. -/
theorem quality_gate_spec (caps : Caps) (depth : Int) (dir pfx : List Char)
    (cm : Bool) (st0 : RunState) (hd : depth = 2 ∨ depth = 3 ∨ depth = 4) :
    ∃ ds st',
      run_depth_pipeline caps depth dir pfx cm st0 =
        (st', Except.ok (if caps.quality (caps.polish ds depth) = []
          then caps.polish ds depth else ds.headD [])) ∧
      st'.polishLog = st0.polishLog ++ [(ds, depth)] ∧
      st'.qcLog = st0.qcLog ++ [caps.polish ds depth] ∧
      ((depth = 2 ∨ depth = 3) →
        ds = (draftLoop caps cm dir pfx depth (List.range depth.toNat) st0).2) ∧
      (depth = 4 →
        ds = winnersFrom caps 0 (build_referee_brackets
          (draftLoop caps cm dir pfx depth (List.range depth.toNat) st0).2)) := by
  rw [run_depth_pipeline_eq caps depth dir pfx cm st0 (Or.inr hd)]
  obtain ⟨h1, h2, h3⟩ :=
    draftLoop_logs caps cm dir pfx depth (List.range depth.toNat) st0
  rcases hd with h | h | h <;> subst h
  · refine ⟨(draftLoop caps cm dir pfx 2 (List.range (2 : Int).toNat) st0).2,
      postStages caps 2
        (draftLoop caps cm dir pfx 2 (List.range (2 : Int).toNat) st0).1
        (draftLoop caps cm dir pfx 2 (List.range (2 : Int).toNat) st0).2,
      ?_, ?_, ?_, fun _ => rfl, fun hh => by norm_num at hh⟩
    · rw [outputOf]; norm_num [polishInputOf]
    · simp [postStages, polishInputOf]
      simpa using h2
    · simp [postStages, polishInputOf]
      simpa using h3
  · refine ⟨(draftLoop caps cm dir pfx 3 (List.range (3 : Int).toNat) st0).2,
      postStages caps 3
        (draftLoop caps cm dir pfx 3 (List.range (3 : Int).toNat) st0).1
        (draftLoop caps cm dir pfx 3 (List.range (3 : Int).toNat) st0).2,
      ?_, ?_, ?_, fun _ => rfl, fun hh => by norm_num at hh⟩
    · rw [outputOf]; norm_num [polishInputOf]
    · simp [postStages, polishInputOf]
      simpa using h2
    · simp [postStages, polishInputOf]
      simpa using h3
  · refine ⟨winnersFrom caps 0 (build_referee_brackets
        (draftLoop caps cm dir pfx 4 (List.range (4 : Int).toNat) st0).2),
      postStages caps 4
        (draftLoop caps cm dir pfx 4 (List.range (4 : Int).toNat) st0).1
        (draftLoop caps cm dir pfx 4 (List.range (4 : Int).toNat) st0).2,
      ?_, ?_, ?_, fun hh => by rcases hh with h | h <;> norm_num at h, fun _ => rfl⟩
    · rw [outputOf]; norm_num [polishInputOf]
    · simp [postStages, polishInputOf]
      simpa using h2
    · simp [postStages, polishInputOf]
      simpa using h3

/-- A closed instance of claim C1 obtained from `quality_gate_spec`. -/
theorem quality_gate_spec_witness :
    ∃ ds st',
      run_depth_pipeline capsBad 2 [] ['q'] false st0W =
        (st', Except.ok (if capsBad.quality (capsBad.polish ds 2) = []
          then capsBad.polish ds 2 else ds.headD [])) ∧
      st'.polishLog = st0W.polishLog ++ [(ds, 2)] ∧
      st'.qcLog = st0W.qcLog ++ [capsBad.polish ds 2] ∧
      (((2 : Int) = 2 ∨ (2 : Int) = 3) →
        ds = (draftLoop capsBad false [] ['q'] 2 (List.range (2 : Int).toNat) st0W).2) ∧
      ((2 : Int) = 4 →
        ds = winnersFrom capsBad 0 (build_referee_brackets
          (draftLoop capsBad false [] ['q'] 2 (List.range (2 : Int).toNat) st0W).2)) :=
  quality_gate_spec capsBad 2 [] ['q'] false st0W (by decide)

/-- The four cache paths of one run are pairwise distinct: their single-digit
index segments differ. -/
theorem range4_paths_pairwise (dir pfx : List Char) (depth : Int) :
    (List.range 4).Pairwise
      (fun i j => cachePathOf dir pfx depth i ≠ cachePathOf dir pfx depth j) := by
  have hd : (List.range 4).Pairwise
      (fun i j => Nat.toDigits 10 i ≠ Nat.toDigits 10 j) := by decide
  exact hd.imp (fun h => cachePathOf_ne dir pfx depth h)

/-- C8 (amended): when every draft of the first run is non-empty, a second
run in continue-mode over the unmodified cache directory performs zero
generate calls (the count is unchanged), leaves the cache untouched, and
returns output identical to the first run's. -/
theorem continue_mode_idempotent (caps : Caps) (depth : Int) (dir pfx : List Char)
    (cm1 : Bool) (st0 : RunState)
    (hd : depth = 1 ∨ depth = 2 ∨ depth = 3 ∨ depth = 4)
    (hne : ∀ d ∈ (draftLoop caps cm1 dir pfx depth (List.range depth.toNat) st0).2,
      d ≠ []) :
    (run_depth_pipeline caps depth dir pfx true
        (run_depth_pipeline caps depth dir pfx cm1 st0).1).1.genCount =
      (run_depth_pipeline caps depth dir pfx cm1 st0).1.genCount ∧
    (run_depth_pipeline caps depth dir pfx true
        (run_depth_pipeline caps depth dir pfx cm1 st0).1).1.fs =
      (run_depth_pipeline caps depth dir pfx cm1 st0).1.fs ∧
    (run_depth_pipeline caps depth dir pfx true
        (run_depth_pipeline caps depth dir pfx cm1 st0).1).2 =
      (run_depth_pipeline caps depth dir pfx cm1 st0).2 := by
  have hpw : (List.range depth.toNat).Pairwise
      (fun i j => cachePathOf dir pfx depth i ≠ cachePathOf dir pfx depth j) := by
    have hsub : List.Sublist (List.range depth.toNat) (List.range 4) :=
      List.range_sublist.mpr (by rcases hd with h | h | h | h <;> subst h <;> decide)
    exact List.Pairwise.sublist hsub (range4_paths_pairwise dir pfx depth)
  have hrt := draftLoop_cache_roundtrip caps cm1 dir pfx depth
    (List.range depth.toNat) st0 hpw
  have hrun1 := run_depth_pipeline_eq caps depth dir pfx cm1 st0 hd
  have hrun1' : (run_depth_pipeline caps depth dir pfx cm1 st0).1 =
      postStages caps depth
        (draftLoop caps cm1 dir pfx depth (List.range depth.toNat) st0).1
        (draftLoop caps cm1 dir pfx depth (List.range depth.toNat) st0).2 := by
    rw [hrun1]
  have hout1 : (run_depth_pipeline caps depth dir pfx cm1 st0).2 =
      Except.ok (outputOf caps depth
        (draftLoop caps cm1 dir pfx depth (List.range depth.toNat) st0).2) := by
    rw [hrun1]
  have hfs : (postStages caps depth
      (draftLoop caps cm1 dir pfx depth (List.range depth.toNat) st0).1
      (draftLoop caps cm1 dir pfx depth (List.range depth.toNat) st0).2).fs =
      (draftLoop caps cm1 dir pfx depth (List.range depth.toNat) st0).1.fs :=
    postStages_fs caps depth _ _
  have hhits : ∀ i ∈ List.range depth.toNat,
      load_cached_draft (postStages caps depth
        (draftLoop caps cm1 dir pfx depth (List.range depth.toNat) st0).1
        (draftLoop caps cm1 dir pfx depth (List.range depth.toNat) st0).2).fs
        (cachePathOf dir pfx depth i) ≠ [] := by
    intro i hi
    rw [hfs]
    apply hne
    rw [← hrt]
    exact List.mem_map_of_mem _ hi
  have hloop2 : draftLoop caps true dir pfx depth (List.range depth.toNat)
      (postStages caps depth
        (draftLoop caps cm1 dir pfx depth (List.range depth.toNat) st0).1
        (draftLoop caps cm1 dir pfx depth (List.range depth.toNat) st0).2) =
      (postStages caps depth
        (draftLoop caps cm1 dir pfx depth (List.range depth.toNat) st0).1
        (draftLoop caps cm1 dir pfx depth (List.range depth.toNat) st0).2,
       (draftLoop caps cm1 dir pfx depth (List.range depth.toNat) st0).2) := by
    rw [draftLoop_all_hits caps dir pfx depth (List.range depth.toNat) _ hhits]
    congr 1
    simp only [hfs]
    exact hrt
  have hrun2 := run_depth_pipeline_eq caps depth dir pfx true
    (postStages caps depth
      (draftLoop caps cm1 dir pfx depth (List.range depth.toNat) st0).1
      (draftLoop caps cm1 dir pfx depth (List.range depth.toNat) st0).2) hd
  rw [hloop2] at hrun2
  refine ⟨?_, ?_, ?_⟩
  · rw [hrun1', hrun2]
    simp [postStages_genCount]
  · rw [hrun1', hrun2]
    simp [postStages_fs]
  · rw [hrun1', hrun2, hout1]

/-- C8 counterexample: with a generate capability that returns the empty
draft, the first run caches `""`; the second continue-mode run treats that
cached empty draft as a miss and invokes generate once more — not zero
times — over the unmodified cache directory. -/
theorem continue_mode_idempotent_cex :
    (run_depth_pipeline capsEmptyGen 1 [] ['p'] true
        (run_depth_pipeline capsEmptyGen 1 [] ['p'] true st0W).1).1.genCount =
      (run_depth_pipeline capsEmptyGen 1 [] ['p'] true st0W).1.genCount + 1 ∧
    (run_depth_pipeline capsEmptyGen 1 [] ['p'] true st0W).1.genCount = 1 := by
  decide

/-- A closed instance of claim C8 obtained from `continue_mode_idempotent`. -/
theorem continue_mode_idempotent_witness :
    (run_depth_pipeline capsW 2 [] ['w'] true
        (run_depth_pipeline capsW 2 [] ['w'] false st0W).1).1.genCount =
      (run_depth_pipeline capsW 2 [] ['w'] false st0W).1.genCount ∧
    (run_depth_pipeline capsW 2 [] ['w'] true
        (run_depth_pipeline capsW 2 [] ['w'] false st0W).1).1.fs =
      (run_depth_pipeline capsW 2 [] ['w'] false st0W).1.fs ∧
    (run_depth_pipeline capsW 2 [] ['w'] true
        (run_depth_pipeline capsW 2 [] ['w'] false st0W).1).2 =
      (run_depth_pipeline capsW 2 [] ['w'] false st0W).2 :=
  continue_mode_idempotent capsW 2 [] ['w'] false st0W (by decide) (by decide)

/-- C10: an absent cache file and a cache file holding the empty string are
indistinguishable to the loader (both load as the empty string, and only
those two situations do); in continue mode such an index is a miss — the
generate capability is invoked and its output overwrites the cache file;
consequently a continue-mode hit (an iteration that leaves the generate
count unchanged) only ever yields non-empty draft text.  The last conjunct
grounds this in the orchestrator: a depth-1 continue-mode run over a cache
whose file holds the empty string regenerates and overwrites it. -/
theorem empty_cache_is_miss :
    (∀ (fs : List (List Char × List Char)) (p : List Char),
      load_cached_draft fs p = [] ↔ (lookupFS fs p = none ∨ lookupFS fs p = some [])) ∧
    (∀ (caps : Caps) (st : RunState) (p : List Char),
      load_cached_draft st.fs p = [] →
        acquireDraft caps true p st =
          ({ st with
              fs := saveFS st.fs p (caps.generate st.genCount),
              genCount := st.genCount + 1 }, caps.generate st.genCount) ∧
        lookupFS (acquireDraft caps true p st).1.fs p =
          some (caps.generate st.genCount)) ∧
    (∀ (caps : Caps) (st : RunState) (p : List Char),
      (acquireDraft caps true p st).1.genCount = st.genCount →
        (acquireDraft caps true p st).2 ≠ []) ∧
    (∀ (caps : Caps) (dir pfx : List Char) (st0 : RunState),
      lookupFS st0.fs (cachePathOf dir pfx 1 0) = some [] →
        run_depth_pipeline caps 1 dir pfx true st0 =
          ({ st0 with
              fs := saveFS st0.fs (cachePathOf dir pfx 1 0) (caps.generate st0.genCount),
              genCount := st0.genCount + 1 },
            Except.ok (caps.generate st0.genCount))) := by
  refine ⟨?_, ?_, ?_, ?_⟩
  · intro fs p
    simp only [load_cached_draft]
    cases hl : lookupFS fs p with
    | none => simp
    | some t => simp [hl]
  · intro caps st p hmiss
    have hstep : acquireDraft caps true p st =
        ({ st with
            fs := saveFS st.fs p (caps.generate st.genCount),
            genCount := st.genCount + 1 }, caps.generate st.genCount) := by
      simp [acquireDraft, hmiss]
    refine ⟨hstep, ?_⟩
    rw [hstep]
    simp [saveFS, lookupFS]
  · intro caps st p hsame
    by_cases hmiss : load_cached_draft st.fs p = []
    · exfalso
      have : (acquireDraft caps true p st).1.genCount = st.genCount + 1 := by
        simp [acquireDraft, hmiss]
      omega
    · have : acquireDraft caps true p st = (st, load_cached_draft st.fs p) := by
        simp [acquireDraft, hmiss]
      rw [this]
      exact hmiss
  · intro caps dir pfx st0 hempty
    have hmiss : load_cached_draft st0.fs (cachePathOf dir pfx 1 0) = [] := by
      simp [load_cached_draft, hempty]
    rw [run_depth_pipeline_eq caps 1 dir pfx true st0 (Or.inl rfl)]
    have hr : List.range (1 : Int).toNat = [0] := by decide
    rw [hr]
    simp [postStages, outputOf, draftLoop, acquireDraft, hmiss]

/-- A closed instance of claim C10 obtained from `empty_cache_is_miss`. -/
theorem empty_cache_is_miss_witness :
    load_cached_draft [(['p'], [])] ['p'] = [] ∧
    run_depth_pipeline capsW 1 [] ['p'] true
        { fs := [(cachePathOf [] ['p'] 1 0, [])], genCount := 0,
          refLog := [], polishLog := [], qcLog := [] } =
      ({ fs := saveFS [(cachePathOf [] ['p'] 1 0, [])] (cachePathOf [] ['p'] 1 0)
            (capsW.generate 0),
          genCount := 1, refLog := [], polishLog := [], qcLog := [] },
        Except.ok (capsW.generate 0)) := by
  constructor
  · exact (empty_cache_is_miss.1 [(['p'], [])] ['p']).mpr (Or.inr (by decide))
  · exact empty_cache_is_miss.2.2.2 capsW [] ['p']
      { fs := [(cachePathOf [] ['p'] 1 0, [])], genCount := 0,
        refLog := [], polishLog := [], qcLog := [] } (by decide)

/-! ### Fingerprint lemmas -/

theorem serFields_eq_map (l : List (List Char × Jval)) :
    serFields l = l.map (fun kv => jQuote kv.1 ++ ':' :: ' ' :: serJ kv.2) := by
  induction l with
  | nil => rfl
  | cons kv rest ih =>
    obtain ⟨k, v⟩ := kv
    simp [serFields, ih]

/-- The canonical sort of rendered entries is invariant under permutation of
the entries: it is the unique `≤`-sorted representative. -/
theorem canonSort_perm_eq (l1 l2 : List (List Char)) (h : l1.Perm l2) :
    List.insertionSort (fun a b => a ≤ b) l1 =
      List.insertionSort (fun a b => a ≤ b) l2 :=
  @List.eq_of_perm_of_sorted (List Char) (fun a b => a ≤ b) inferInstance _ _
    (((List.perm_insertionSort _ l1).trans h).trans
      (List.perm_insertionSort _ l2).symm)
    (List.sorted_insertionSort _ l1)
    (List.sorted_insertionSort _ l2)

/-- Serializing an object is invariant under reordering its fields. -/
theorem serJ_obj_perm {fs1 fs2 : List (List Char × Jval)} (h : fs1.Perm fs2) :
    serJ (Jval.obj fs1) = serJ (Jval.obj fs2) := by
  have hsort : List.insertionSort (fun a b => a ≤ b) (serFields fs1) =
      List.insertionSort (fun a b => a ≤ b) (serFields fs2) := by
    apply canonSort_perm_eq
    rw [serFields_eq_map, serFields_eq_map]
    exact h.map _
  simp only [serJ, hsort]

theorem compute_run_fingerprint_length (o : List (List Char × Jval))
    (s : List Char) (t : Int) (e : List (List Char × Jval)) :
    (compute_run_fingerprint o s t e).length = 16 := by
  simp [compute_run_fingerprint, sha256hex, hexWord32]

/-- C9 (amended): the fingerprint is a 16-character digest and a
deterministic function of the semantic context: two outlines that agree on
the consulted fields (user, window bounds), whose totals maps are equal up
to field order and whose extra-options maps are equal up to field order,
fingerprint identically under the same stage name and target value.
(Changing the target is *not* guaranteed to change the 16-hex-character
digest: see the pigeonhole counterexample.) -/
theorem fingerprint_canonical (o1 o2 ts1 ts2 e1 e2 : List (List Char × Jval))
    (s : List Char) (t : Int)
    (hu : jGet o1 "user".toList (Jval.str []) = jGet o2 "user".toList (Jval.str []))
    (hws : jGet o1 "window_start".toList (Jval.str []) =
      jGet o2 "window_start".toList (Jval.str []))
    (hwe : jGet o1 "window_end".toList (Jval.str []) =
      jGet o2 "window_end".toList (Jval.str []))
    (ht1 : jGet o1 "totals".toList (Jval.obj []) = Jval.obj ts1)
    (ht2 : jGet o2 "totals".toList (Jval.obj []) = Jval.obj ts2)
    (hts : ts1.Perm ts2) (hes : e1.Perm e2) :
    compute_run_fingerprint o1 s t e1 = compute_run_fingerprint o2 s t e2 ∧
    (compute_run_fingerprint o1 s t e1).length = 16 := by
  refine ⟨?_, compute_run_fingerprint_length o1 s t e1⟩
  have hserTotals : serJ (jGet o1 "totals".toList (Jval.obj [])) =
      serJ (jGet o2 "totals".toList (Jval.obj [])) := by
    rw [ht1, ht2]
    exact serJ_obj_perm hts
  have hserExtra : serJ (Jval.obj e1) = serJ (Jval.obj e2) := serJ_obj_perm hes
  have hfields : serFields
      [("stage_name".toList, Jval.str s),
       ("user".toList, jGet o1 "user".toList (Jval.str [])),
       ("window_start".toList, jGet o1 "window_start".toList (Jval.str [])),
       ("window_end".toList, jGet o1 "window_end".toList (Jval.str [])),
       ("target_value".toList, Jval.num t),
       ("totals".toList, jGet o1 "totals".toList (Jval.obj [])),
       ("extra".toList, Jval.obj e1)] =
      serFields
      [("stage_name".toList, Jval.str s),
       ("user".toList, jGet o2 "user".toList (Jval.str [])),
       ("window_start".toList, jGet o2 "window_start".toList (Jval.str [])),
       ("window_end".toList, jGet o2 "window_end".toList (Jval.str [])),
       ("target_value".toList, Jval.num t),
       ("totals".toList, jGet o2 "totals".toList (Jval.obj [])),
       ("extra".toList, Jval.obj e2)] := by
    simp only [serFields_eq_map, List.map_cons, List.map_nil]
    rw [hu, hws, hwe, hserTotals, hserExtra]
  have hpayload : serJ (Jval.obj
      [("stage_name".toList, Jval.str s),
       ("user".toList, jGet o1 "user".toList (Jval.str [])),
       ("window_start".toList, jGet o1 "window_start".toList (Jval.str [])),
       ("window_end".toList, jGet o1 "window_end".toList (Jval.str [])),
       ("target_value".toList, Jval.num t),
       ("totals".toList, jGet o1 "totals".toList (Jval.obj [])),
       ("extra".toList, Jval.obj e1)]) =
      serJ (Jval.obj
      [("stage_name".toList, Jval.str s),
       ("user".toList, jGet o2 "user".toList (Jval.str [])),
       ("window_start".toList, jGet o2 "window_start".toList (Jval.str [])),
       ("window_end".toList, jGet o2 "window_end".toList (Jval.str [])),
       ("target_value".toList, Jval.num t),
       ("totals".toList, jGet o2 "totals".toList (Jval.obj [])),
       ("extra".toList, Jval.obj e2)]) := by
    simp only [serJ, hfields]
  exact congrArg (fun l => (sha256hex (List.map Char.toNat l)).take 16) hpayload

theorem encodeChars_lt (l : List Char) : encodeChars l < 2 ^ (32 * l.length) := by
  induction l with
  | nil => simp [encodeChars]
  | cons c rest ih =>
    have hc : c.toNat < 2 ^ 32 := UInt32.toNat_lt c.val
    simp only [encodeChars, List.length_cons]
    have h1 : 2 ^ (32 * (rest.length + 1)) = 2 ^ 32 * 2 ^ (32 * rest.length) := by
      ring
    rw [h1]
    calc c.toNat + 2 ^ 32 * encodeChars rest
        < 2 ^ 32 + 2 ^ 32 * encodeChars rest := by omega
      _ = 2 ^ 32 * (encodeChars rest + 1) := by ring
      _ ≤ 2 ^ 32 * 2 ^ (32 * rest.length) := by
          exact Nat.mul_le_mul_left _ ih

theorem encodeChars_inj (l1 : List Char) : ∀ l2 : List Char,
    l1.length = l2.length → encodeChars l1 = encodeChars l2 → l1 = l2 := by
  induction l1 with
  | nil =>
    intro l2 hlen _
    cases l2 with
    | nil => rfl
    | cons c r => simp at hlen
  | cons c1 r1 ih =>
    intro l2 hlen henc
    cases l2 with
    | nil => simp at hlen
    | cons c2 r2 =>
      simp only [encodeChars] at henc
      have hb1 : c1.toNat < 2 ^ 32 := UInt32.toNat_lt c1.val
      have hb2 : c2.toNat < 2 ^ 32 := UInt32.toNat_lt c2.val
      have hmod : c1.toNat = c2.toNat := by
        have h1 := congrArg (fun n => n % 2 ^ 32) henc
        simp only [Nat.add_mul_mod_self_left] at h1
        rwa [Nat.mod_eq_of_lt hb1, Nat.mod_eq_of_lt hb2] at h1
      have hmul : 2 ^ 32 * encodeChars r1 = 2 ^ 32 * encodeChars r2 := by omega
      have hrest : encodeChars r1 = encodeChars r2 :=
        Nat.eq_of_mul_eq_mul_left (by norm_num) hmul
      have hlen' : r1.length = r2.length := by simpa using hlen
      rw [Char.ext (UInt32.ext hmod), ih r2 hlen' hrest]

/-- C9 counterexample: the target value ranges over the infinitely many
integers, while 16-character digests form a finite set, so some two distinct
targets share a fingerprint — "changing the numeric target value produces a
different digest" is false as a universal statement. -/
theorem fingerprint_target_collision_cex :
    ¬ (∀ t1 t2 : Int, t1 ≠ t2 →
        compute_run_fingerprint [] "blog".toList t1 [] ≠
          compute_run_fingerprint [] "blog".toList t2 []) := by
  intro hinj
  have hf : ∀ t : Int,
      encodeChars (compute_run_fingerprint [] "blog".toList t []) < 2 ^ (32 * 16) := by
    intro t
    have h := encodeChars_lt (compute_run_fingerprint [] "blog".toList t [])
    have hl := compute_run_fingerprint_length [] "blog".toList t []
    calc encodeChars (compute_run_fingerprint [] "blog".toList t [])
        < 2 ^ (32 * (compute_run_fingerprint [] "blog".toList t []).length) := h
      _ = 2 ^ (32 * 16) := by rw [hl]
  obtain ⟨t1, t2, hne, heq⟩ := Finite.exists_ne_map_eq_of_infinite
    (fun t : Int =>
      (⟨encodeChars (compute_run_fingerprint [] "blog".toList t []), hf t⟩ :
        Fin (2 ^ (32 * 16))))
  have heq' := congrArg Fin.val heq
  simp only [] at heq'
  have hlen : (compute_run_fingerprint [] "blog".toList t1 []).length =
      (compute_run_fingerprint [] "blog".toList t2 []).length := by
    rw [compute_run_fingerprint_length, compute_run_fingerprint_length]
  exact hinj t1 t2 hne (encodeChars_inj _ _ hlen heq')

/-- A closed instance of claim C9 obtained from `fingerprint_canonical`. -/
theorem fingerprint_canonical_witness :
    compute_run_fingerprint
        [("user".toList, Jval.str "sam".toList),
         ("totals".toList, Jval.obj
           [("a".toList, Jval.num 1), ("b".toList, Jval.num 2)])]
        "blog".toList 500
        [("k".toList, Jval.num 3), ("m".toList, Jval.num 4)] =
      compute_run_fingerprint
        [("totals".toList, Jval.obj
           [("b".toList, Jval.num 2), ("a".toList, Jval.num 1)]),
         ("user".toList, Jval.str "sam".toList)]
        "blog".toList 500
        [("m".toList, Jval.num 4), ("k".toList, Jval.num 3)] ∧
    (compute_run_fingerprint
        [("user".toList, Jval.str "sam".toList),
         ("totals".toList, Jval.obj
           [("a".toList, Jval.num 1), ("b".toList, Jval.num 2)])]
        "blog".toList 500
        [("k".toList, Jval.num 3), ("m".toList, Jval.num 4)]).length = 16 :=
  fingerprint_canonical _ _
    [("a".toList, Jval.num 1), ("b".toList, Jval.num 2)]
    [("b".toList, Jval.num 2), ("a".toList, Jval.num 1)] _ _ _ _
    rfl rfl rfl rfl rfl
    (List.Perm.swap _ _ _) (List.Perm.swap _ _ _)

/-- The spec's winner-parser test vectors, evaluated on the model. -/
theorem parse_winner_test_vectors :
    parse_referee_winner "<winner>A</winner>".toList "A".toList "B".toList
      = "A".toList ∧
    parse_referee_winner "no marker".toList "A".toList "B".toList = "B".toList ∧
    parse_referee_winner "<winner>Z</winner>".toList "A".toList "B".toList
      = "B".toList ∧
    parse_referee_winner "x <WINNER>  a\t</Winner> y".toList "A".toList "B".toList
      = "A".toList := by decide

set_option maxRecDepth 4000 in
/-- FIPS 180-4 test vectors for the SHA-256 embedding. -/
theorem sha256hex_test_vectors :
    sha256hex ("abc".toList.map Char.toNat) =
      "ba7816bf8f01cfea414140de5dae2223b00361a396177a9cb410ff61f20015ad".toList ∧
    sha256hex [] =
      "e3b0c44298fc1c149afbf4c8996fb92427ae41e4649b934ca495991b7852b855".toList := by
  decide
